import Mathlib

/-!
Verification development for the NHTK schedule parser
(`parser_supabase.py`, class `NHTKLiveParser`).

The Python source is shallowly embedded below.  HTML cells (as produced by
the markup library) are modelled as records carrying the stripped text
returned by `get_text(strip=True)` and the target of the first embedded
hyperlink (`find('a', href=True)`), which is exactly the data the parser
reads from each cell.  All regular expressions of the source are embedded
as executable character-list matchers with the same matching semantics on
the character classes the source uses (ASCII digits, whitespace, and
word characters including the Cyrillic block).
-/

namespace NHTK

/-- Python `\d` (as used by the source on schedule text): an ASCII digit. -/
def pyDigit (c : Char) : Bool := '0' ≤ c && c ≤ '9'

/-- Python `\s`: whitespace (space and the ASCII control whitespace range). -/
def pySpace (c : Char) : Bool := c = ' ' || (9 ≤ c.toNat && c.toNat ≤ 13)

/-- Python `\w` on the text handled by the parser: ASCII alphanumerics,
underscore, and the Cyrillic block U+0400–U+04FF. -/
def pyWord (c : Char) : Bool :=
  c.isAlphanum || c = '_' || (0x400 ≤ c.toNat && c.toNat ≤ 0x4FF)

/-- Case folding for `re.IGNORECASE` over the characters the source
patterns meet: ASCII letters and Cyrillic А–Я, Ё. -/
def lowerRu (c : Char) : Char :=
  if 'A' ≤ c && c ≤ 'Z' then Char.ofNat (c.toNat + 32)
  else if 'А' ≤ c && c ≤ 'Я' then Char.ofNat (c.toNat + 32)
  else if c = 'Ё' then 'ё' else c

/-- Literal-prefix test on character lists. -/
def startsWithLit : List Char → List Char → Bool
  | [], _ => true
  | a :: as, b :: bs => a = b && startsWithLit as bs
  | _ :: _, [] => false

/-- Python `needle in hay` substring test. -/
def containsLit (needle : List Char) : List Char → Bool
  | [] => needle.isEmpty
  | c :: rest => startsWithLit needle (c :: rest) || containsLit needle rest

/-- Case-insensitive literal-prefix test. -/
def ciStartsWith (needle hay : List Char) : Bool :=
  startsWithLit (needle.map lowerRu) (hay.map lowerRu)

/-- Python `str.strip()`: drop whitespace from both ends. -/
def pyStrip (l : List Char) : List Char :=
  ((l.dropWhile pySpace).reverse.dropWhile pySpace).reverse

/-- `re.sub(r'\s+', ' ', ·)`: collapse each whitespace run to one space. -/
def collapseWs : List Char → List Char
  | [] => []
  | [c] => if pySpace c then [' '] else [c]
  | c1 :: c2 :: rest =>
    if pySpace c1 then
      if pySpace c2 then collapseWs (c2 :: rest)
      else ' ' :: collapseWs (c2 :: rest)
    else c1 :: collapseWs (c2 :: rest)

/-- One attempt of `\s*к/п\s*` anchored at the head of the list; on success
returns the remainder after the greedy match. -/
def tryKPAt (l : List Char) : Option (List Char) :=
  match l.dropWhile pySpace with
  | 'к' :: '/' :: 'п' :: r2 => some (r2.dropWhile pySpace)
  | _ => none

/-- `re.sub(r'\s*к/п\s*', ' ', ·)`: left-to-right non-overlapping
replacement of the enrollment-type marker by a single space.  The fuel is
the input length, which bounds the number of scan steps. -/
def subKP : Nat → List Char → List Char
  | 0, l => l
  | fuel + 1, l =>
    match tryKPAt l with
    | some rest => ' ' :: subKP fuel rest
    | none =>
      match l with
      | [] => []
      | c :: cs => c :: subKP fuel cs

/-- `re.match(r'^\s*[1-9]\s*$', ·)`: optional whitespace, one digit 1–9,
optional whitespace, end of string. -/
def numCellMatch (l : List Char) : Bool :=
  match l.dropWhile pySpace with
  | c :: rest => ('1' ≤ c && c ≤ '9') && rest.all pySpace
  | [] => false

/-- `int(text.strip())` on a cell accepted by `numCellMatch`: the digit. -/
def parseNumCell (l : List Char) : Nat :=
  match l.dropWhile pySpace with
  | c :: _ => c.toNat - '0'.toNat
  | [] => 0

/-- Match `\d{1,2}:\d{2}` at the head of the list, returning the rest.
The two-digit-hour alternative is probed first, as the greedy `\d{1,2}`
does; if the second character is a digit but no colon follows it, the
one-digit backtrack cannot succeed either since that digit is not ':'. -/
def matchHM : List Char → Option (List Char)
  | a :: ':' :: c :: d :: r =>
    if pyDigit a && pyDigit c && pyDigit d then some r else none
  | a :: b :: ':' :: c :: d :: r =>
    if pyDigit a && pyDigit b && pyDigit c && pyDigit d then some r else none
  | _ => none

/-- Match `\d{1,2}:\d{2}–\d{1,2}:\d{2}` anchored at the head. -/
def matchTimeAt (l : List Char) : Bool :=
  match matchHM l with
  | some ('–' :: rest) => (matchHM rest).isSome
  | _ => false

/-- `re.search(r'\d{1,2}:\d{2}–\d{1,2}:\d{2}', ·)`. -/
def timeSearch : List Char → Bool
  | [] => false
  | c :: rest => matchTimeAt (c :: rest) || timeSearch rest

/-- `re.search(r'\d{1,2}:\d{2}', ·)` (used by the fallback pass). -/
def hmSearch : List Char → Bool
  | [] => false
  | c :: rest => (matchHM (c :: rest)).isSome || hmSearch rest

/-- `re.match(r'^(\d{2,3}|с/[зк])$', ·, re.IGNORECASE)`: a 2–3-digit room
number or one of the two literal abbreviations, over the whole cell text. -/
def roomMatch (l : List Char) : Bool :=
  (l.all pyDigit && (l.length = 2 || l.length = 3)) ||
  (l.map lowerRu = ['с', '/', 'з'] || l.map lowerRu = ['с', '/', 'к'])

/-- `re.match(r'^\d+$', ·)`: a non-empty all-digit cell. -/
def allDigits (l : List Char) : Bool := !l.isEmpty && l.all pyDigit

/-- One attempt of `\[(\d+\s*п/г)\]` anchored at the head; on success
returns the capture group `\d+\s*п/г`. -/
def subgroupAt (l : List Char) : Option (List Char) :=
  match l with
  | '[' :: r =>
    let ds := r.takeWhile pyDigit
    let r1 := r.dropWhile pyDigit
    let ws := r1.takeWhile pySpace
    let r2 := r1.dropWhile pySpace
    if ds.isEmpty then none
    else
      match r2 with
      | 'п' :: '/' :: 'г' :: ']' :: _ => some (ds ++ ws ++ ['п', '/', 'г'])
      | _ => none
  | _ => none

/-- `re.search(r'\[(\d+\s*п/г)\]', ·)`: leftmost match, capture group 1. -/
def subgroupSearch : List Char → Option (List Char)
  | [] => none
  | c :: rest =>
    match subgroupAt (c :: rest) with
    | some g => some g
    | none => subgroupSearch rest

/-- One table cell as the parser reads it: the text returned by
`get_text(strip=True)` and the target of the first `<a href=…>` link
(`none` when the cell has no such link). -/
structure Cell where
  text : String
  href : Option String
deriving DecidableEq, Repr

/-- The lesson dictionary built by `_parse_lesson_row` (same fields, same
initial values). -/
structure Lesson where
  day : String
  lesson_number : Option Nat
  time : String
  subject : String
  subject_url : String
  teacher : String
  teacher_url : String
  room : String
  room_url : String
  subgroup : String
deriving DecidableEq, Repr

/-- `self.base_url`. -/
def base_url : String := "https://расписание.нхтк.рф"

/-- The per-cell hyperlink normalization of `_parse_lesson_row`:
`if href and not href.startswith('http'): href = self.base_url + '/' + href.lstrip('/')`. -/
def normalize_href (href : String) : String :=
  if href = "" then href
  else if startsWithLit "http".data href.data then href
  else base_url ++ "/" ++ String.mk (href.data.dropWhile (fun c => c = '/'))

/-- `href = link['href'] if link else ""` followed by the normalization. -/
def cell_href (c : Cell) : String :=
  match c.href with
  | none => ""
  | some h => normalize_href h

/-- `_get_lesson_from_time`: the fixed start-time → slot-number lookup,
keyed on the substring before the dash. -/
def get_lesson_from_time (time : String) : Option Nat :=
  if time = "" then none
  else
    let cs := time.data
    let start :=
      if cs.contains '–' then cs.takeWhile (fun c => c ≠ '–')
      else cs.takeWhile (fun c => c ≠ '-')
    let key := String.mk (pyStrip start)
    List.lookup key
      [("8:30", 1), ("08:30", 1), ("9:00", 1), ("09:00", 1),
       ("10:15", 2), ("10:30", 2), ("12:00", 3), ("12:30", 3),
       ("14:00", 4), ("14:30", 4), ("16:00", 5), ("16:30", 5),
       ("18:00", 6), ("18:30", 6)]

/-- The subject-text normalization of `_parse_lesson_row`:
`re.sub(r'\s+', ' ', text).strip()` then `re.sub(r'\s*к/п\s*', ' ', ·).strip()`. -/
def cleanSubject (text : String) : String :=
  let s1 := pyStrip (collapseWs text.data)
  String.mk (pyStrip (subKP s1.length s1))

/-- One iteration of the ordered heuristic pass of `_parse_lesson_row`
over cell `c` at index `i` (each source rule ends in `continue`, so the
rules form an if/else chain). -/
def process_cell (st : Lesson) (i : Nat) (c : Cell) : Lesson :=
  let text := c.text
  let href := cell_href c
  if decide (i < 2) && numCellMatch text.data then
    { st with lesson_number := some (parseNumCell text.data) }
  else if timeSearch text.data then
    let st1 := { st with time := text }
    if st1.lesson_number = none then
      { st1 with lesson_number := get_lesson_from_time text }
    else st1
  else if c.href.isSome && containsLit "do.nhtk-edu.ru".data href.data then
    let st1 := { st with subject := cleanSubject text, subject_url := href }
    match subgroupSearch text.data with
    | some g => { st1 with subgroup := String.mk (pyStrip g) }
    | none => st1
  else if c.href.isSome && containsLit "расписание.нхтк.рф".data href.data
      && st.teacher = "" then
    { st with teacher := text, teacher_url := href }
  else if roomMatch text.data then
    let st1 := { st with room := text }
    if c.href.isSome then { st1 with room_url := href } else st1
  else st

/-- The ordered heuristic pass: `for i, cell in enumerate(cells)`. -/
def ordered_pass : Lesson → Nat → List Cell → Lesson
  | st, _, [] => st
  | st, i, c :: cs => ordered_pass (process_cell st i c) (i + 1) cs

/-- One iteration of the fallback pass (`if not lesson["subject"]: for cell
in cells: …`). -/
def fallback_step (st : Lesson) (c : Cell) : Lesson :=
  let text := c.text
  if text ≠ "" && !allDigits text.data && !hmSearch text.data then
    if !roomMatch text.data then
      if st.subject = "" then
        { st with subject := String.mk (pyStrip (collapseWs text.data)) }
      else if st.teacher = "" then { st with teacher := text }
      else st
    else st
  else st

/-- The fallback pass, entered only when the ordered pass left `subject`
empty. -/
def fallback_pass (st : Lesson) (cells : List Cell) : Lesson :=
  if st.subject = "" then cells.foldl fallback_step st else st

/-- The lesson dictionary as it stands at the end of `_parse_lesson_row`,
before the final mandatory-field check. -/
def lesson_candidate (day : String) (cells : List Cell) : Lesson :=
  let init : Lesson := ⟨day, none, "", "", "", "", "", "", "", ""⟩
  fallback_pass (ordered_pass init 0 cells) cells

/-- `_parse_lesson_row`.  The `Except` input models the row-boundary
`try`/`except` of the source: `.error` stands for an unexpected exception
raised by the markup library while the row's cells are being read inside
the `try` block; the handler logs and returns `None`. -/
def parse_lesson_row (r : Except String (List Cell)) (day : String) :
    Option Lesson :=
  match r with
  | .error _ => none
  | .ok cells =>
    let l := lesson_candidate day cells
    if l.subject = "" || l.time = "" then none else some l

/-- The seven weekday alternatives of the day-header pattern, in source
order. -/
def weekdayLits : List (List Char) :=
  ["Понедельник".data, "Вторник".data, "Среда".data, "Четверг".data,
   "Пятница".data, "Суббота".data, "Воскресенье".data]

/-- After a weekday literal the day-header pattern requires
`,\s+\d+\s+\w+`; on success returns the matched characters. -/
def dayRestMatch (l : List Char) : Option (List Char) :=
  match l with
  | ',' :: t =>
    let ws1 := t.takeWhile pySpace
    let t1 := t.dropWhile pySpace
    let ds := t1.takeWhile pyDigit
    let t2 := t1.dropWhile pyDigit
    let ws2 := t2.takeWhile pySpace
    let t3 := t2.dropWhile pySpace
    let wd := t3.takeWhile pyWord
    if ws1.isEmpty || ds.isEmpty || ws2.isEmpty || wd.isEmpty then none
    else some (',' :: (ws1 ++ ds ++ ws2 ++ wd))
  | _ => none

/-- Try the weekday alternatives in order at the start of the string. -/
def dayMatchAux : List (List Char) → List Char → Option (List Char)
  | [], _ => none
  | wk :: wks, s =>
    if startsWithLit wk s then
      match dayRestMatch (s.drop wk.length) with
      | some rest => some (wk ++ rest)
      | none => dayMatchAux wks s
    else dayMatchAux wks s

/-- `re.match(r'^(Понедельник|…|Воскресенье),\s+\d+\s+\w+', full_text)`
returning `group(0)`, the matched prefix. -/
def dayMatch (s : String) : Option String :=
  (dayMatchAux weekdayLits s.data).map String.mk

/-- `full_text`: the cell texts joined with single spaces. -/
def rowFullText (cells : List Cell) : String :=
  String.intercalate " " (cells.map Cell.text)

/-- The header-keyword skip:
`any(kw in full_text for kw in ['Время', 'Предмет', 'Преподаватель', 'Ауд.', 'Препод.'])`. -/
def isHeaderRow (ft : String) : Bool :=
  ["Время", "Предмет", "Преподаватель", "Ауд.", "Препод."].any
    (fun kw => containsLit kw.data ft.data)

/-- The classifier state of `_parse_table`: the running `current_day` and
the lessons collected so far. -/
structure TableState where
  currentDay : Option String
  lessons : List Lesson
deriving DecidableEq, Repr

/-- One iteration of the `_parse_table` row loop. -/
def table_step (st : TableState) (cells : List Cell) : TableState :=
  if cells.isEmpty then st
  else
    let ft := rowFullText cells
    match dayMatch ft with
    | some d => { st with currentDay := some d }
    | none =>
      if isHeaderRow ft then st
      else
        match st.currentDay with
        | some d =>
          if cells.length ≥ 4 then
            match parse_lesson_row (Except.ok cells) d with
            | some l => { st with lessons := st.lessons ++ [l] }
            | none => st
          else st
        | none => st

/-- `_parse_table`: fold the row loop from the initial state
(`current_day = None`, `lessons = []`) and return the lesson list. -/
def parse_table (rows : List (List Cell)) : List Lesson :=
  (rows.foldl table_step ⟨none, []⟩).lessons

/-- Consume a maximal non-empty run of characters satisfying `p`. -/
def eat1 (p : Char → Bool) : List Char → Option (List Char)
  | c :: rest => if p c then some (rest.dropWhile p) else none
  | [] => none

/-- Consume one expected character. -/
def eatChar (e : Char) : List Char → Option (List Char)
  | c :: rest => if c = e then some rest else none
  | [] => none

/-- `\d{4}\s*г` (with `re.IGNORECASE`, and the trailing `\.?` imposing no
constraint) anchored at the head of the list. -/
def p1Here (l : List Char) : Bool :=
  match l with
  | a :: b :: c :: d :: r =>
    if pyDigit a && pyDigit b && pyDigit c && pyDigit d then
      match r.dropWhile pySpace with
      | g :: _ => lowerRu g = 'г'
      | [] => false
    else false
  | _ => false

/-- The lazy `.*?\d{4}\s*г\.?` tail of the first period pattern: scan
forward over non-newline characters (`.` does not cross newlines) for a
position where `p1Here` matches. -/
def p1After : List Char → Bool
  | [] => false
  | c :: rest => p1Here (c :: rest) || (c ≠ '\n' && p1After rest)

/-- `re.search(r'Расписание занятий.*?\d{4}\s*г\.?', ·, re.IGNORECASE)`. -/
def periodPattern1 : List Char → Bool
  | [] => false
  | c :: rest =>
    (ciStartsWith "Расписание занятий".data (c :: rest)
      && p1After ((c :: rest).drop "Расписание занятий".data.length))
    || periodPattern1 rest

/-- `\d+\s+\w+\s*—\s*\d+\s+\w+\s+\d{4}` anchored at the head of the list.
Each greedy run is followed by a character class disjoint from it, so
maximal-run matching coincides with the regex semantics. -/
def p2Here (l : List Char) : Bool :=
  (do
    let r1 ← eat1 pyDigit l
    let r2 ← eat1 pySpace r1
    let r3 ← eat1 pyWord r2
    let r4 := r3.dropWhile pySpace
    let r5 ← eatChar '—' r4
    let r6 := r5.dropWhile pySpace
    let r7 ← eat1 pyDigit r6
    let r8 ← eat1 pySpace r7
    let r9 ← eat1 pyWord r8
    let r10 ← eat1 pySpace r9
    match r10 with
    | a :: b :: c :: d :: _ =>
      if pyDigit a && pyDigit b && pyDigit c && pyDigit d then some () else none
    | _ => none).isSome

/-- `re.search` of the second period pattern. -/
def periodPattern2 : List Char → Bool
  | [] => false
  | c :: rest => p2Here (c :: rest) || periodPattern2 rest

/-- Whether either period pattern matches somewhere in the text node. -/
def matchesPeriod (s : String) : Bool :=
  periodPattern1 s.data || periodPattern2 s.data

/-- The period-extraction loop of `parse_schedule` over the document's
text nodes: every matching node assigns `period = text.strip()`, and the
`break` only leaves the inner pattern loop, so the loop keeps scanning
later nodes. -/
def find_period (texts : List String) : String :=
  texts.foldl
    (fun acc t => if matchesPeriod t then String.mk (pyStrip t.data) else acc)
    ""

/-! ### Fingerprinting (`_get_data_hash`)

`json.dumps(schedule, sort_keys=True, ensure_ascii=False)` followed by
`hashlib.md5(·.encode('utf-8')).hexdigest()`.  A lesson dictionary is
modelled as an association list (so that per-record key ordering is
expressible), its values being the strings, small integers and `None`
the parser stores. -/

/-- A JSON value as stored in a lesson dictionary. -/
inductive JVal where
  | s (v : String)
  | i (v : Int)
  | null
deriving DecidableEq, Repr

/-- A lesson dictionary: keys paired with values, in insertion order. -/
def JObj := List (String × JVal)

instance : DecidableEq JObj := by
  unfold JObj
  infer_instance

/-- Code-point lexicographic order on strings, as Python `sorted` uses on
`str` keys. -/
def charListLe : List Char → List Char → Bool
  | [], _ => true
  | a :: as, b :: bs =>
    if a.toNat < b.toNat then true
    else if a.toNat = b.toNat then charListLe as bs
    else false
  | _ :: _, [] => false

/-- Insertion into a key-sorted pair list. -/
def insertPair (x : String × JVal) : List (String × JVal) → List (String × JVal)
  | [] => [x]
  | y :: ys => if charListLe x.1.data y.1.data then x :: y :: ys else y :: insertPair x ys

/-- `sort_keys=True`: the dictionary's pairs sorted by key. -/
def sortPairs (o : JObj) : List (String × JVal) :=
  o.foldr insertPair []

/-- Hex digit characters (lowercase, as Python emits them). -/
def hexDigit (n : Nat) : Char :=
  if n < 10 then Char.ofNat (48 + n)
  else if n < 16 then Char.ofNat (87 + n)
  else '0'

/-- `json.dumps` escaping of one character under `ensure_ascii=False`. -/
def jsonEscapeChar (c : Char) : List Char :=
  if c = '"' then ['\\', '"']
  else if c = '\\' then ['\\', '\\']
  else if c = '\n' then ['\\', 'n']
  else if c = '\r' then ['\\', 'r']
  else if c = '\t' then ['\\', 't']
  else if c.toNat = 8 then ['\\', 'b']
  else if c.toNat = 12 then ['\\', 'f']
  else if c.toNat < 32 then
    ['\\', 'u', '0', '0', hexDigit (c.toNat / 16), hexDigit (c.toNat % 16)]
  else [c]

/-- A JSON string literal. -/
def jsonStr (s : String) : String :=
  "\"" ++ String.mk (s.data.foldr (fun c acc => jsonEscapeChar c ++ acc) []) ++ "\""

/-- A JSON scalar value. -/
def jsonValStr : JVal → String
  | .s v => jsonStr v
  | .i v => toString v
  | .null => "null"

/-- A dictionary whose pairs are already in output order, rendered with
the default `json.dumps` separators `", "` and `": "`. -/
def encodeSortedObj (pairs : List (String × JVal)) : String :=
  "\x7b" ++
    String.intercalate ", "
      (pairs.map (fun p => jsonStr p.1 ++ ": " ++ jsonValStr p.2)) ++
  "\x7d"

/-- One lesson dictionary under `sort_keys=True`. -/
def encodeObj (o : JObj) : String :=
  encodeSortedObj (sortPairs o)

/-- `json.dumps(schedule, sort_keys=True, ensure_ascii=False)`: the lesson
sequence in order, each record with sorted keys. -/
def encodeLessonList (l : List JObj) : String :=
  "[" ++ String.intercalate ", " (l.map encodeObj) ++ "]"

/-- `str.encode('utf-8')` for one character. -/
def utf8Char (c : Char) : List Nat :=
  let n := c.toNat
  if n < 0x80 then [n]
  else if n < 0x800 then
    [0xC0 ||| (n >>> 6), 0x80 ||| (n &&& 0x3F)]
  else if n < 0x10000 then
    [0xE0 ||| (n >>> 12), 0x80 ||| ((n >>> 6) &&& 0x3F), 0x80 ||| (n &&& 0x3F)]
  else
    [0xF0 ||| (n >>> 18), 0x80 ||| ((n >>> 12) &&& 0x3F),
     0x80 ||| ((n >>> 6) &&& 0x3F), 0x80 ||| (n &&& 0x3F)]

/-- `str.encode('utf-8')`. -/
def utf8Bytes (s : String) : List Nat :=
  s.data.foldr (fun c acc => utf8Char c ++ acc) []

/-- 2³². -/
def m32 : Nat := 4294967296

/-- 2³² − 1. -/
def mask32 : Nat := 4294967295

/-- 32-bit left rotation. -/
def rotl (x n : Nat) : Nat :=
  ((x <<< n) ||| (x >>> (32 - n))) % m32

/-- 32-bit complement. -/
def not32 (x : Nat) : Nat := x ^^^ mask32

/-- The MD5 sine-derived constant table. -/
def md5K : List Nat :=
  [0xd76aa478, 0xe8c7b756, 0x242070db, 0xc1bdceee,
   0xf57c0faf, 0x4787c62a, 0xa8304613, 0xfd469501,
   0x698098d8, 0x8b44f7af, 0xffff5bb1, 0x895cd7be,
   0x6b901122, 0xfd987193, 0xa679438e, 0x49b40821,
   0xf61e2562, 0xc040b340, 0x265e5a51, 0xe9b6c7aa,
   0xd62f105d, 0x02441453, 0xd8a1e681, 0xe7d3fbc8,
   0x21e1cde6, 0xc33707d6, 0xf4d50d87, 0x455a14ed,
   0xa9e3e905, 0xfcefa3f8, 0x676f02d9, 0x8d2a4c8a,
   0xfffa3942, 0x8771f681, 0x6d9d6122, 0xfde5380c,
   0xa4beea44, 0x4bdecfa9, 0xf6bb4b60, 0xbebfbc70,
   0x289b7ec6, 0xeaa127fa, 0xd4ef3085, 0x04881d05,
   0xd9d4d039, 0xe6db99e5, 0x1fa27cf8, 0xc4ac5665,
   0xf4292244, 0x432aff97, 0xab9423a7, 0xfc93a039,
   0x655b59c3, 0x8f0ccc92, 0xffeff47d, 0x85845dd1,
   0x6fa87e4f, 0xfe2ce6e0, 0xa3014314, 0x4e0811a1,
   0xf7537e82, 0xbd3af235, 0x2ad7d2bb, 0xeb86d391]

/-- The MD5 per-round shift table. -/
def md5S : List Nat :=
  [7, 12, 17, 22, 7, 12, 17, 22, 7, 12, 17, 22, 7, 12, 17, 22,
   5, 9, 14, 20, 5, 9, 14, 20, 5, 9, 14, 20, 5, 9, 14, 20,
   4, 11, 16, 23, 4, 11, 16, 23, 4, 11, 16, 23, 4, 11, 16, 23,
   6, 10, 15, 21, 6, 10, 15, 21, 6, 10, 15, 21, 6, 10, 15, 21]

/-- One MD5 round `i` on the 16 message words `M`. -/
def md5Round (M : List Nat) (st : Nat × Nat × Nat × Nat) (i : Nat) :
    Nat × Nat × Nat × Nat :=
  let (a, b, c, d) := st
  let f :=
    if i < 16 then (b &&& c) ||| (not32 b &&& d)
    else if i < 32 then (d &&& b) ||| (not32 d &&& c)
    else if i < 48 then b ^^^ c ^^^ d
    else c ^^^ (b ||| not32 d)
  let g :=
    if i < 16 then i
    else if i < 32 then (5 * i + 1) % 16
    else if i < 48 then (3 * i + 5) % 16
    else (7 * i) % 16
  let f2 := (f + a + md5K.getD i 0 + M.getD g 0) % m32
  (d, (b + rotl f2 (md5S.getD i 0)) % m32, b, c)

/-- Little-endian 32-bit words from a byte list. -/
def toWords : List Nat → List Nat
  | b0 :: b1 :: b2 :: b3 :: rest =>
    (b0 + 256 * b1 + 65536 * b2 + 16777216 * b3) :: toWords rest
  | _ => []

/-- One 64-byte MD5 block. -/
def md5Block (st : Nat × Nat × Nat × Nat) (blockBytes : List Nat) :
    Nat × Nat × Nat × Nat :=
  let M := toWords blockBytes
  let (a, b, c, d) := st
  let (a2, b2, c2, d2) := (List.range 64).foldl (md5Round M) st
  ((a + a2) % m32, (b + b2) % m32, (c + c2) % m32, (d + d2) % m32)

/-- Process `n` 64-byte blocks. -/
def md5Chunks : Nat → (Nat × Nat × Nat × Nat) → List Nat → Nat × Nat × Nat × Nat
  | 0, st, _ => st
  | n + 1, st, bytes => md5Chunks n (md5Block st (bytes.take 64)) (bytes.drop 64)

/-- MD5 padding: `0x80`, zeros to 56 mod 64, then the bit length as eight
little-endian bytes. -/
def md5Pad (msg : List Nat) : List Nat :=
  let len := msg.length
  let k := (119 - len % 64) % 64
  let bitLen := (8 * len) % (2 ^ 64)
  msg ++ [128] ++ List.replicate k 0 ++
    ((List.range 8).map (fun i => (bitLen >>> (8 * i)) % 256))

/-- One state word as eight hex characters (little-endian byte order). -/
def wordHex (w : Nat) : List Char :=
  ((List.range 4).map (fun i => (w >>> (8 * i)) % 256)).foldr
    (fun byte acc => hexDigit (byte / 16) :: hexDigit (byte % 16) :: acc) []

/-- `hashlib.md5(·).hexdigest()` over a byte list. -/
def md5Hex (bytes : List Nat) : String :=
  let padded := md5Pad bytes
  let (a, b, c, d) :=
    md5Chunks (padded.length / 64)
      (0x67452301, 0xefcdab89, 0x98badcfe, 0x10325476) padded
  String.mk (wordHex a ++ wordHex b ++ wordHex c ++ wordHex d)

/-- `_get_data_hash`: canonical JSON text of the lesson sequence, digested
with MD5. -/
def get_data_hash (schedule : List JObj) : String :=
  md5Hex (utf8Bytes (encodeLessonList schedule))

/-! ### Change detection and sink interaction -/

/-- The `metadata` dictionary of a schedule document. -/
structure Metadata where
  source_url : String
  parse_date : String
  group : String
  period : String
deriving DecidableEq, Repr

/-- A schedule document (`data`): metadata plus the lesson dictionaries. -/
structure ScheduleData where
  metadata : Metadata
  schedule : List JObj
deriving DecidableEq

/-- The environment `check_data_changed` runs in.  `query` is the
prior-state lookup: the `data_hash` column of the rows returned for the
group, newest first (`.get("data_hash")`, hence `Option`); `.error`
models an exception raised anywhere inside the `try` block
(`create_client` or the query). -/
structure ChangeEnv where
  supabase_available : Bool
  supabase_url : String
  supabase_key : String
  query : Except String (List (Option String))

/-- `check_data_changed`: `True` means "assume changed". -/
def check_data_changed (env : ChangeEnv) (new_data : ScheduleData) : Bool :=
  if !env.supabase_available then true
  else if env.supabase_url = "" || env.supabase_key = "" then true
  else
    match env.query with
    | .error _ => true
    | .ok rows =>
      if new_data.metadata.group = "" then true
      else
        match rows with
        | [] => true
        | oldHash :: _ =>
          if oldHash = some (get_data_hash new_data.schedule) then false
          else true

/-- An operation issued against the sink by `save_to_supabase`. -/
inductive SinkAction where
  | delete (group_code : String)
  | insert (items : List JObj)
deriving DecidableEq

/-- `item.get(k, "")` on a lesson dictionary. -/
def jGetS (o : JObj) (k : String) : JVal :=
  (List.lookup k o).getD (.s "")

/-- `item.get(k)` on a lesson dictionary (default `None`). -/
def jGetN (o : JObj) (k : String) : JVal :=
  (List.lookup k o).getD .null

/-- One flattened row of `items_to_insert`. -/
def lesson_item (meta : Metadata) (now hash : String) (item : JObj) : JObj :=
  [("group_code", .s meta.group), ("period", .s meta.period),
   ("source_url", .s meta.source_url),
   ("day", jGetS item "day"), ("lesson_number", jGetN item "lesson_number"),
   ("time", jGetS item "time"), ("subject", jGetS item "subject"),
   ("subject_url", jGetS item "subject_url"), ("teacher", jGetS item "teacher"),
   ("teacher_url", jGetS item "teacher_url"), ("room", jGetS item "room"),
   ("room_url", jGetS item "room_url"), ("subgroup", jGetS item "subgroup"),
   ("parsed_at", .s now), ("data_hash", .s hash)]

/-- The environment `save_to_supabase` runs in: configuration, whether
`create_client`, the delete and the insert succeed (their `False` cases
model exceptions caught by the surrounding `try`), and the ambient
`datetime.now().isoformat()`. -/
structure SaveEnv where
  supabase_available : Bool
  supabase_url : String
  supabase_key : String
  client_ok : Bool
  delete_ok : Bool
  insert_ok : Bool
  now : String

/-- `save_to_supabase`: the returned success flag together with the
sequence of operations issued against the sink. -/
def save_to_supabase (env : SaveEnv) (data : ScheduleData) :
    Bool × List SinkAction :=
  if !env.supabase_available then (false, [])
  else if env.supabase_url = "" || env.supabase_key = "" then (false, [])
  else if !env.client_ok then (false, [])
  else if data.schedule.isEmpty then (false, [])
  else
    let hash := get_data_hash data.schedule
    let items := data.schedule.map (lesson_item data.metadata env.now hash)
    let acts1 := [SinkAction.delete data.metadata.group]
    if !env.delete_ok then (false, acts1)
    else
      let acts2 := acts1 ++ [SinkAction.insert items]
      if !env.insert_ok then (false, acts2)
      else (true, acts2)

/-- The environment of one `parse_url` run.  `fetched` is the
`fetch_page` result; `force_update` is `os.getenv("FORCE_UPDATE") == 'true'`. -/
structure RunEnv where
  fetched : Option String
  upload_to_supabase : Bool
  force_update : Bool
  change : ChangeEnv
  sink : SaveEnv

/-- The control flow of `parse_url` after the fetch: `data` is the
document `parse_schedule` produced from the fetched markup (the
HTML-to-document step is the markup-library boundary); `save_to_json`'s
result is ignored by the source. -/
def parse_url (env : RunEnv) (data : ScheduleData) : Bool :=
  match env.fetched with
  | none => false
  | some _ =>
    if env.upload_to_supabase then
      let has_changes :=
        if env.force_update then true else check_data_changed env.change data
      if !has_changes then true
      else (save_to_supabase env.sink data).1
    else true

/-! ### Concrete inputs used by the theorems -/

/-- The spec's end-to-end scenario: a day-header row, one header row, one
lesson row. -/
def scenarioRows : List (List Cell) :=
  [[⟨"Понедельник, 9 сентября", none⟩],
   [⟨"№", none⟩, ⟨"Время", none⟩, ⟨"Предмет", none⟩,
    ⟨"Преподаватель", none⟩, ⟨"Ауд.", none⟩],
   [⟨"1", none⟩, ⟨"8:30–10:00", none⟩,
    ⟨"Математика [2 п/г]", some "https://do.nhtk-edu.ru/course/view.php?id=1"⟩,
    ⟨"Иванов И.И.", some "https://расписание.нхтк.рф/t1.html"⟩,
    ⟨"204", none⟩]]

/-- The record the parser actually produces on `scenarioRows`. -/
def scenarioLesson : Lesson :=
  ⟨"Понедельник, 9 сентября", some 1, "8:30–10:00", "Математика [2 п/г]",
   "https://do.nhtk-edu.ru/course/view.php?id=1", "Иванов И.И.",
   "https://расписание.нхтк.рф/t1.html", "204", "", "2 п/г"⟩

/-- A lesson row whose time cell is "10:15–11:45" and which carries no
explicit lesson number. -/
def c6RowMapped : List Cell :=
  [⟨"10:15–11:45", none⟩, ⟨"Физика", some "https://do.nhtk-edu.ru/c2"⟩,
   ⟨"Петров П.П.", some "https://расписание.нхтк.рф/t2.html"⟩, ⟨"305", none⟩]

/-- The same row with the unmapped start time "19:00". -/
def c6RowUnmapped : List Cell :=
  [⟨"19:00–20:00", none⟩, ⟨"Физика", some "https://do.nhtk-edu.ru/c2"⟩,
   ⟨"Петров П.П.", some "https://расписание.нхтк.рф/t2.html"⟩, ⟨"305", none⟩]

/-- Two document text nodes that both match the first period pattern. -/
def c3TextA : String := "Расписание занятий на 2024 г."

/-- See `c3TextA`. -/
def c3TextB : String := "Расписание занятий на 2025 г."

/-- A four-cell row that every extraction rejects (all cell texts empty). -/
def blankRow : List Cell :=
  [⟨"", none⟩, ⟨"", none⟩, ⟨"", none⟩, ⟨"", none⟩]

/-- A small lesson dictionary. -/
def c5LessonA : JObj :=
  [("subject", .s "Математика"), ("time", .s "8:30–10:00")]

/-- A second, different lesson dictionary. -/
def c5LessonB : JObj :=
  [("subject", .s "Физика"), ("time", .s "10:15–11:45")]

/-! ### C1 -/

/-- C1 fails on the code: on the end-to-end scenario input the parser
produces exactly one record, but its subject is "Математика [2 п/г]" —
the bracketed subgroup annotation is captured into `subgroup` without
being removed from the subject text — not "Математика" as claimed. -/
theorem C1_counterexample :
    (parse_table scenarioRows).map Lesson.subject = ["Математика [2 п/г]"] ∧
    ("Математика [2 п/г]" : String) ≠ "Математика" := by
  decide

/-- C1 (amended): on the end-to-end scenario input the parser produces
exactly one lesson record with day "Понедельник, 9 сентября", lesson
number 1, time "8:30–10:00", subject "Математика [2 п/г]", subgroup
"2 п/г", teacher "Иванов И.И." and room "204". -/
theorem C1_scenario : parse_table scenarioRows = [scenarioLesson] := by
  decide

/-! ### C3 -/

/-- C3 fails on the code: both given nodes match a period pattern, yet the
committed period is the trimmed text of the second (last) matching node,
not the first — the `break` leaves only the inner pattern loop, so
scanning never stops. -/
theorem C3_counterexample :
    matchesPeriod c3TextA = true ∧ matchesPeriod c3TextB = true ∧
    find_period [c3TextA, c3TextB] = c3TextB ∧ c3TextB ≠ c3TextA := by
  decide

/-- C3 (amended): period extraction scans all text nodes in document
order, probing both patterns on each node; every matching node overwrites
the period with its trimmed text, so the committed period is that of the
last matching node, and a non-matching node leaves it unchanged. -/
theorem C3_last_match_wins :
    (∀ (ts : List String) (t : String), matchesPeriod t = true →
      find_period (ts ++ [t]) = String.mk (pyStrip t.data)) ∧
    (∀ (ts : List String) (t : String), matchesPeriod t = false →
      find_period (ts ++ [t]) = find_period ts) := by
  constructor <;> intro ts t h <;>
    simp [find_period, List.foldl_append, h]

/-- Witness for `C3_last_match_wins`. -/
theorem C3_last_match_wins_witness :
    find_period ([c3TextA] ++ [c3TextB]) = String.mk (pyStrip c3TextB.data) :=
  C3_last_match_wins.1 [c3TextA] c3TextB (by decide)

/-! ### C7 -/

/-- C7: for every non-empty cell hyperlink target, a target that does not
start with "http" is rewritten to the base address, one separator, and
the target with all leading separators stripped; a target that does start
with "http" passes through unchanged; and the per-cell href used by the
extraction rules is exactly this normalization of the cell's link. -/
theorem C7_href_normalization :
    ∀ href : String, href ≠ "" →
      (startsWithLit "http".data href.data = false →
        normalize_href href =
          base_url ++ "/" ++ String.mk (href.data.dropWhile (fun c => c = '/'))) ∧
      (startsWithLit "http".data href.data = true → normalize_href href = href) ∧
      (∀ c : Cell, c.href = some href → cell_href c = normalize_href href) := by
  intro href h
  refine ⟨fun habs => ?_, fun habs => ?_, fun c hc => ?_⟩
  · simp [normalize_href, h, habs]
  · simp [normalize_href, h, habs]
  · simp [cell_href, hc]

/-- Witness for `C7_href_normalization`. -/
theorem C7_href_normalization_witness :
    normalize_href "//pages/09.07.13п1.html" =
      base_url ++ "/" ++
        String.mk ("//pages/09.07.13п1.html".data.dropWhile (fun c => c = '/')) :=
  (C7_href_normalization "//pages/09.07.13п1.html" (by decide)).1 (by decide)

/-! ### C8 -/

/-- C8: an exception raised while a row's cells are being read inside the
extractor's `try` block yields `None` for that row (the row is rejected),
and a rejected non-day-header row contributes nothing to the parse: the
table over any surrounding rows equals the table with the row removed, so
the failure never reaches the caller. -/
theorem C8_row_failure_contained :
    (∀ (e day : String), parse_lesson_row (Except.error e) day = none) ∧
    (∀ (pre post : List (List Cell)) (r : List Cell),
      dayMatch (rowFullText r) = none →
      (∀ d, parse_lesson_row (Except.ok r) d = none) →
      parse_table (pre ++ r :: post) = parse_table (pre ++ post)) := by
  constructor
  · intro e day
    rfl
  · intro pre post r hday hrej
    have hstep : ∀ st : TableState, table_step st r = st := by
      intro st
      unfold table_step
      by_cases he : r.isEmpty
      · simp [he]
      · simp only [he, if_false, Bool.false_eq_true]
        rw [hday]
        by_cases hh : isHeaderRow (rowFullText r)
        · simp [hh]
        · simp only [hh, if_false, Bool.false_eq_true]
          match hc : st.currentDay with
          | none => rfl
          | some d =>
            by_cases hl : r.length ≥ 4
            · simp [hl, hrej d]
            · simp [hl]
    unfold parse_table
    rw [List.foldl_append, List.foldl_append, List.foldl_cons, hstep]

/-- Witness for `C8_row_failure_contained`. -/
theorem C8_row_failure_contained_witness :
    parse_lesson_row (Except.error "unexpected") "Понедельник, 9 сентября" = none ∧
    parse_table ([] ++ blankRow :: scenarioRows) = parse_table ([] ++ scenarioRows) :=
  ⟨C8_row_failure_contained.1 "unexpected" "Понедельник, 9 сентября",
   C8_row_failure_contained.2 [] scenarioRows blankRow (by decide) (fun d => rfl)⟩

/-! ### C6 -/

/-- C6: a time-range cell processed while no lesson number is assigned
(and which is not itself a lesson-number cell) commits the cell text as
the time and derives the number from the fixed start-time lookup; on full
rows, "10:15–11:45" yields lesson number 2 and the unmapped
"19:00–20:00" leaves the number absent. -/
theorem C6_number_from_time :
    (∀ (st : Lesson) (i : Nat) (c : Cell),
      st.lesson_number = none →
      (decide (i < 2) && numCellMatch c.text.data) = false →
      timeSearch c.text.data = true →
      (process_cell st i c).time = c.text ∧
      (process_cell st i c).lesson_number = get_lesson_from_time c.text) ∧
    ((parse_lesson_row (Except.ok c6RowMapped) "Среда, 11 сентября").map
        Lesson.lesson_number) = some (some 2) ∧
    ((parse_lesson_row (Except.ok c6RowUnmapped) "Среда, 11 сентября").map
        Lesson.lesson_number) = some none ∧
    get_lesson_from_time "10:15–11:45" = some 2 ∧
    get_lesson_from_time "19:00–20:00" = none := by
  refine ⟨?_, by decide, by decide, by decide, by decide⟩
  intro st i c h1 h2 h3
  unfold process_cell
  simp only [h2, h3, Bool.false_eq_true, if_false, if_true]
  simp [h1]

/-- Witness for `C6_number_from_time`. -/
theorem C6_number_from_time_witness :
    (process_cell ⟨"Среда, 11 сентября", none, "", "", "", "", "", "", "", ""⟩ 2
        ⟨"12:00–13:30", none⟩).time = "12:00–13:30" ∧
    (process_cell ⟨"Среда, 11 сентября", none, "", "", "", "", "", "", "", ""⟩ 2
        ⟨"12:00–13:30", none⟩).lesson_number = get_lesson_from_time "12:00–13:30" :=
  C6_number_from_time.1 ⟨"Среда, 11 сентября", none, "", "", "", "", "", "", "", ""⟩
    2 ⟨"12:00–13:30", none⟩ rfl (by decide) (by decide)

/-! ### C10 -/

/-- C10: with an empty schedule list `save_to_supabase` returns failure
having issued no sink operation at all, and a run with sync enabled and a
non-skipped change check therefore reports overall failure on an empty
schedule even though the fetch and parse succeeded. -/
theorem C10_empty_schedule_never_erases :
    (∀ (env : SaveEnv) (data : ScheduleData), data.schedule = [] →
      save_to_supabase env data = (false, [])) ∧
    (∀ (env : RunEnv) (data : ScheduleData) (html : String),
      env.fetched = some html →
      env.upload_to_supabase = true →
      (env.force_update = true ∨ check_data_changed env.change data = true) →
      data.schedule = [] →
      parse_url env data = false) := by
  have hsave : ∀ (env : SaveEnv) (data : ScheduleData), data.schedule = [] →
      save_to_supabase env data = (false, []) := by
    intro env data h
    unfold save_to_supabase
    have : data.schedule.isEmpty = true := by simp [h]
    split_ifs <;> simp_all
  refine ⟨hsave, ?_⟩
  intro env data html hf hu hc hs
  unfold parse_url
  rw [hf]
  simp only [hu, if_true]
  have hch : (if env.force_update then true else check_data_changed env.change data) = true := by
    rcases hc with hc | hc <;> simp [hc]
  rw [hch]
  simp [hsave env.sink data hs]

/-- Witness for `C10_empty_schedule_never_erases`. -/
theorem C10_empty_schedule_never_erases_witness :
    save_to_supabase ⟨true, "u", "k", true, true, true, "2024-09-09T08:00:00"⟩
        ⟨⟨"src", "2024-09-09T08:00:00", "09.07.13п1", "период"⟩, []⟩ = (false, []) ∧
    parse_url
        ⟨some "<html>", true, true, ⟨true, "u", "k", Except.ok []⟩,
         ⟨true, "u", "k", true, true, true, "2024-09-09T08:00:00"⟩⟩
        ⟨⟨"src", "2024-09-09T08:00:00", "09.07.13п1", "период"⟩, []⟩ = false :=
  ⟨C10_empty_schedule_never_erases.1 _ _ rfl,
   C10_empty_schedule_never_erases.2 _ _ "<html>" rfl rfl (Or.inl rfl) rfl⟩

/-! ### C2 -/

/-- A record returned by `_parse_lesson_row` survived the final
mandatory-field check. -/
lemma parse_lesson_row_fields {r : Except String (List Cell)} {day : String}
    {l : Lesson} (h : parse_lesson_row r day = some l) :
    l.subject ≠ "" ∧ l.time ≠ "" := by
  match r with
  | .error e => simp [parse_lesson_row] at h
  | .ok cells =>
    unfold parse_lesson_row at h
    dsimp only [] at h
    by_cases hc : (lesson_candidate day cells).subject = "" ∨
        (lesson_candidate day cells).time = ""
    · rw [if_pos (by simpa using hc)] at h
      exact absurd h (by simp)
    · rw [if_neg (by simpa using hc)] at h
      cases h
      push_neg at hc
      exact hc

/-- A lesson added by one classifier step comes from the extractor under
the currently active day. -/
lemma table_step_lessons_sub {st : TableState} {cells : List Cell} {l : Lesson}
    (h : l ∈ (table_step st cells).lessons) :
    l ∈ st.lessons ∨
      ∃ d, st.currentDay = some d ∧ parse_lesson_row (Except.ok cells) d = some l := by
  unfold table_step at h
  by_cases he : cells.isEmpty
  · simp [he] at h
    exact Or.inl h
  · simp only [he, Bool.false_eq_true, if_false] at h
    match hd : dayMatch (rowFullText cells) with
    | some d => rw [hd] at h; exact Or.inl h
    | none =>
      rw [hd] at h
      by_cases hh : isHeaderRow (rowFullText cells)
      · simp [hh] at h; exact Or.inl h
      · simp only [hh, Bool.false_eq_true, if_false] at h
        match hc : st.currentDay with
        | none => rw [hc] at h; exact Or.inl h
        | some d =>
          rw [hc] at h
          by_cases hl : cells.length ≥ 4
          · simp only [hl, if_true] at h
            match hp : parse_lesson_row (Except.ok cells) d with
            | none => rw [hp] at h; exact Or.inl h
            | some l0 =>
              rw [hp] at h
              simp only [List.mem_append, List.mem_singleton] at h
              rcases h with h | h
              · exact Or.inl h
              · exact Or.inr ⟨d, rfl, h ▸ hp⟩
          · simp [hl] at h; exact Or.inl h

/-- Lessons already collected survive every later classifier step. -/
lemma foldl_table_lessons_inv {P : Lesson → Prop}
    (hstep : ∀ cells d l, parse_lesson_row (Except.ok cells) d = some l → P l) :
    ∀ (rows : List (List Cell)) (st : TableState),
      (∀ l ∈ st.lessons, P l) →
      ∀ l ∈ (rows.foldl table_step st).lessons, P l := by
  intro rows
  induction rows with
  | nil => intro st hst l hl; exact hst l hl
  | cons r rs ih =>
    intro st hst l hl
    refine ih (table_step st r) ?_ l hl
    intro l0 hl0
    rcases table_step_lessons_sub hl0 with h | ⟨d, _, hp⟩
    · exact hst l0 h
    · exact hstep r d l0 hp

/-- C2: every lesson record in the final list has a non-empty subject and
a non-empty time, and a row whose candidate record still lacks either
field after both passes is rejected by the extractor and contributes
nothing. -/
theorem C2_mandatory_fields :
    (∀ (rows : List (List Cell)) (l : Lesson), l ∈ parse_table rows →
      l.subject ≠ "" ∧ l.time ≠ "") ∧
    (∀ (cells : List Cell) (day : String),
      (lesson_candidate day cells).subject = "" ∨
        (lesson_candidate day cells).time = "" →
      parse_lesson_row (Except.ok cells) day = none) := by
  constructor
  · intro rows l hl
    exact foldl_table_lessons_inv
      (fun cells d l0 h => parse_lesson_row_fields h)
      rows ⟨none, []⟩ (by simp) l hl
  · intro cells day h
    unfold parse_lesson_row
    dsimp only []
    rw [if_pos (by simpa using h)]

/-- Witness for `C2_mandatory_fields`. -/
theorem C2_mandatory_fields_witness :
    (scenarioLesson.subject ≠ "" ∧ scenarioLesson.time ≠ "") ∧
    parse_lesson_row (Except.ok [⟨"Орг. собрание", none⟩, ⟨"", none⟩,
      ⟨"", none⟩, ⟨"", none⟩]) "Понедельник, 9 сентября" = none :=
  ⟨C2_mandatory_fields.1 scenarioRows scenarioLesson (by decide),
   C2_mandatory_fields.2 _ "Понедельник, 9 сентября" (Or.inr (by decide))⟩

/-! ### C9 -/

/-- C9: the change check returns "unchanged" (`false`) exactly when the
remote library is available, both configuration values are present, the
prior-state query succeeded without an exception, the group identifier is
non-empty, and the newest prior record carries a fingerprint equal to the
new one; every other situation — including any exception during the
check — yields "assume changed" (`true`). -/
theorem C9_ambiguous_check_means_changed :
    ∀ (env : ChangeEnv) (data : ScheduleData),
      check_data_changed env data = false ↔
        (env.supabase_available = true ∧
         env.supabase_url ≠ "" ∧ env.supabase_key ≠ "" ∧
         data.metadata.group ≠ "" ∧
         ∃ rest, env.query =
           Except.ok (some (get_data_hash data.schedule) :: rest)) := by
  intro env data
  rcases env with ⟨avail, url, key, q⟩
  cases avail with
  | false => simp [check_data_changed]
  | true =>
    by_cases hu : url = ""
    · simp [check_data_changed, hu]
    · by_cases hk : key = ""
      · simp [check_data_changed, hu, hk]
      · cases q with
        | error e => simp [check_data_changed, hu, hk]
        | ok rows =>
          by_cases hg : data.metadata.group = ""
          · simp [check_data_changed, hu, hk, hg]
          · cases rows with
            | nil => simp [check_data_changed, hu, hk, hg]
            | cons oldHash rest =>
              by_cases hh : oldHash = some (get_data_hash data.schedule)
              · simp [check_data_changed, hu, hk, hg, hh]
              · simp [check_data_changed, hu, hk, hg, hh]

/-! ### C5 -/

set_option maxRecDepth 100000 in
/-- C5: the fingerprint canonicalizes each record by sorting its keys
while preserving the sequence order, then digests; hence two lesson lists
whose records carry the same key–value content (equal key-sorted forms)
yield equal fingerprints whatever the per-record key ordering, while
swapping the two distinct lessons of the given concrete list changes the
fingerprint. -/
theorem C5_fingerprint_policy :
    (∀ l1 l2 : List JObj, l1.map sortPairs = l2.map sortPairs →
      get_data_hash l1 = get_data_hash l2) ∧
    (c5LessonA ≠ c5LessonB ∧
      get_data_hash [c5LessonA, c5LessonB] ≠ get_data_hash [c5LessonB, c5LessonA]) := by
  constructor
  · intro l1 l2 h
    have hmap : l1.map encodeObj = l2.map encodeObj := by
      have e1 : l1.map encodeObj = (l1.map sortPairs).map encodeSortedObj := by
        rw [List.map_map]; rfl
      have e2 : l2.map encodeObj = (l2.map sortPairs).map encodeSortedObj := by
        rw [List.map_map]; rfl
      rw [e1, e2, h]
    simp only [get_data_hash, encodeLessonList, hmap]
  · exact ⟨by decide, by decide⟩

/-- Witness for `C5_fingerprint_policy`: the same record content in two
different key orders fingerprints identically. -/
theorem C5_fingerprint_policy_witness :
    get_data_hash [[("subject", JVal.s "Математика"), ("time", JVal.s "8:30–10:00")]] =
      get_data_hash [[("time", JVal.s "8:30–10:00"), ("subject", JVal.s "Математика")]] :=
  C5_fingerprint_policy.1 _ _ (by decide)

/-! ### C4 -/

/-- The `current_day` transition performed by one classifier row. -/
def day_step (d0 : Option String) (cells : List Cell) : Option String :=
  if cells.isEmpty then d0
  else
    match dayMatch (rowFullText cells) with
    | some d => some d
    | none => d0

/-- The `current_day` active after a list of rows. -/
def day_fold (d0 : Option String) (rows : List (List Cell)) : Option String :=
  rows.foldl day_step d0

/-- `table_step` drives `current_day` exactly as `day_step` does. -/
lemma table_step_currentDay (st : TableState) (cells : List Cell) :
    (table_step st cells).currentDay = day_step st.currentDay cells := by
  unfold table_step day_step
  by_cases he : cells.isEmpty
  · simp [he]
  · simp only [he, Bool.false_eq_true, if_false]
    match hd : dayMatch (rowFullText cells) with
    | some d => rfl
    | none =>
      by_cases hh : isHeaderRow (rowFullText cells)
      · simp [hh]
      · simp only [hh, Bool.false_eq_true, if_false]
        match hc : st.currentDay with
        | none => simpa using hc
        | some d =>
          by_cases hl : cells.length ≥ 4
          · simp only [hl, if_true]
            match hp : parse_lesson_row (Except.ok cells) d with
            | none => simpa using hc
            | some l => rfl
          · simpa [hl] using hc

/-- The ordered-pass rules never touch the `day` field. -/
lemma process_cell_day (st : Lesson) (i : Nat) (c : Cell) :
    (process_cell st i c).day = st.day := by
  unfold process_cell
  dsimp only []
  repeat' split
  all_goals rfl

/-- See `process_cell_day`. -/
lemma ordered_pass_day (cs : List Cell) (st : Lesson) (i : Nat) :
    (ordered_pass st i cs).day = st.day := by
  induction cs generalizing st i with
  | nil => rfl
  | cons c cs ih =>
    simp only [ordered_pass]
    rw [ih, process_cell_day]

/-- The fallback pass never touches the `day` field. -/
lemma fallback_step_day (st : Lesson) (c : Cell) :
    (fallback_step st c).day = st.day := by
  unfold fallback_step
  dsimp only []
  repeat' split
  all_goals rfl

/-- See `fallback_step_day`. -/
lemma foldl_fallback_day (cs : List Cell) (st : Lesson) :
    (cs.foldl fallback_step st).day = st.day := by
  induction cs generalizing st with
  | nil => rfl
  | cons c cs ih =>
    rw [List.foldl_cons, ih, fallback_step_day]

/-- See `fallback_step_day`. -/
lemma fallback_pass_day (st : Lesson) (cells : List Cell) :
    (fallback_pass st cells).day = st.day := by
  unfold fallback_pass
  split
  · exact foldl_fallback_day cells st
  · rfl

/-- The candidate record carries the day the classifier passed in. -/
lemma lesson_candidate_day (day : String) (cells : List Cell) :
    (lesson_candidate day cells).day = day := by
  unfold lesson_candidate
  rw [fallback_pass_day, ordered_pass_day]

/-- A record returned by the extractor carries the day it was given. -/
lemma parse_lesson_row_day {cells : List Cell} {day : String} {l : Lesson}
    (h : parse_lesson_row (Except.ok cells) day = some l) : l.day = day := by
  unfold parse_lesson_row at h
  dsimp only [] at h
  by_cases hc : (lesson_candidate day cells).subject = "" ∨
      (lesson_candidate day cells).time = ""
  · rw [if_pos (by simpa using hc)] at h
    exact absurd h (by simp)
  · rw [if_neg (by simpa using hc)] at h
    cases h
    exact lesson_candidate_day day cells

/-- A successful `dayMatchAux` over non-empty alternatives returns a
non-empty match. -/
lemma dayMatchAux_ne_nil :
    ∀ (wl : List (List Char)) (s m : List Char),
      (∀ wk ∈ wl, wk ≠ []) → dayMatchAux wl s = some m → m ≠ [] := by
  intro wl
  induction wl with
  | nil => intro s m _ h; exact absurd h (by simp [dayMatchAux])
  | cons wk wks ih =>
    intro s m hne h
    unfold dayMatchAux at h
    by_cases hs : startsWithLit wk s = true
    · rw [if_pos hs] at h
      match hr : dayRestMatch (s.drop wk.length) with
      | some rest =>
        rw [hr] at h
        cases h
        have : wk ≠ [] := hne wk (by simp)
        match wk with
        | [] => exact absurd rfl this
        | a :: as => simp
      | none =>
        rw [hr] at h
        exact ih s m (fun w hw => hne w (by simp [hw])) h
    · rw [if_neg hs] at h
      exact ih s m (fun w hw => hne w (by simp [hw])) h

/-- A matched day-header prefix is a non-empty string. -/
lemma dayMatch_ne_empty {s d : String} (h : dayMatch s = some d) : d ≠ "" := by
  unfold dayMatch at h
  match hx : dayMatchAux weekdayLits s.data with
  | none => rw [hx] at h; exact absurd h (by simp)
  | some m =>
    rw [hx] at h
    simp only [Option.map] at h
    have hm : m ≠ [] :=
      dayMatchAux_ne_nil weekdayLits s.data m (by decide) hx
    have h2 : String.mk m = d := Option.some.inj h
    intro heq
    apply hm
    have h3 : String.mk m = String.mk [] := by
      rw [h2, heq]
    simpa using congrArg String.data h3

/-- Every collected lesson originates in a row of the input, extracted
under the `current_day` active just before that row. -/
lemma foldl_table_mem :
    ∀ (rows : List (List Cell)) (st : TableState) (l : Lesson),
      l ∈ (rows.foldl table_step st).lessons →
      l ∈ st.lessons ∨
        ∃ j, ∃ hj : j < rows.length,
          day_fold st.currentDay (rows.take j) = some l.day ∧
          parse_lesson_row (Except.ok (rows.get ⟨j, hj⟩)) l.day = some l := by
  intro rows
  induction rows with
  | nil => intro st l hl; exact Or.inl hl
  | cons r rs ih =>
    intro st l hl
    rw [List.foldl_cons] at hl
    rcases ih (table_step st r) l hl with h | ⟨j, hj, hday, hrow⟩
    · rcases table_step_lessons_sub h with h2 | ⟨d, hc, hp⟩
      · exact Or.inl h2
      · right
        have hld : l.day = d := parse_lesson_row_day hp
        refine ⟨0, by simp, ?_, ?_⟩
        · rw [List.take_zero]
          unfold day_fold
          rw [List.foldl_nil, hc, hld]
        · simpa [hld] using hp
    · right
      refine ⟨j + 1, by simpa using Nat.succ_lt_succ hj, ?_, ?_⟩
      · rw [List.take_succ_cons]
        unfold day_fold
        rw [List.foldl_cons, ← table_step_currentDay]
        exact hday
      · simpa using hrow

/-- A committed `current_day` comes from the initial state or from a
day-header row of the list. -/
lemma day_fold_source :
    ∀ (rows : List (List Cell)) (d0 : Option String) (d : String),
      day_fold d0 rows = some d →
      d0 = some d ∨
        ∃ i, ∃ hi : i < rows.length,
          dayMatch (rowFullText (rows.get ⟨i, hi⟩)) = some d := by
  intro rows
  induction rows with
  | nil => intro d0 d h; exact Or.inl h
  | cons r rs ih =>
    intro d0 d h
    unfold day_fold at h
    rw [List.foldl_cons] at h
    rcases ih (day_step d0 r) d h with h2 | ⟨i, hi, hm⟩
    · unfold day_step at h2
      by_cases he : r.isEmpty
      · rw [if_pos he] at h2
        exact Or.inl h2
      · rw [if_neg he] at h2
        match hd : dayMatch (rowFullText r) with
        | some d2 =>
          rw [hd] at h2
          right
          refine ⟨0, by simp, ?_⟩
          simpa using hd.trans h2
        | none =>
          rw [hd] at h2
          exact Or.inl h2
    · exact Or.inr ⟨i + 1, by simpa using Nat.succ_lt_succ hi, by simpa using hm⟩

/-- C4: a day-header row only updates `current_day` and never yields a
lesson record, and every record in the final list carries a non-empty day
equal to the matched prefix of a day-header row strictly preceding — in
input order — the row the record was extracted from (hence rows before
the first day header yield no records). -/
theorem C4_day_header_discipline :
    (∀ (st : TableState) (cells : List Cell) (d : String),
      dayMatch (rowFullText cells) = some d →
      table_step st cells = ⟨some d, st.lessons⟩) ∧
    (∀ (rows : List (List Cell)) (l : Lesson), l ∈ parse_table rows →
      l.day ≠ "" ∧
      ∃ i j : Nat, ∃ hi : i < rows.length, ∃ hj : j < rows.length, i < j ∧
        dayMatch (rowFullText (rows.get ⟨i, hi⟩)) = some l.day ∧
        parse_lesson_row (Except.ok (rows.get ⟨j, hj⟩)) l.day = some l) := by
  constructor
  · intro st cells d h
    match cells with
    | [] =>
      rw [show dayMatch (rowFullText []) = none from by decide] at h
      exact Option.noConfusion h
    | c :: cs =>
      unfold table_step
      simp only [List.isEmpty_cons, Bool.false_eq_true, if_false]
      rw [h]
  · intro rows l hl
    unfold parse_table at hl
    rcases foldl_table_mem rows ⟨none, []⟩ l hl with h | ⟨j, hj, hday, hrow⟩
    · exact absurd h (by simp)
    · rcases day_fold_source (rows.take j) none l.day hday with h2 | ⟨i, hi, hm⟩
      · exact absurd h2 (by simp)
      · have hi2 : i < rows.length := by
          have := hi
          rw [List.length_take] at this
          omega
        have hij : i < j := by
          have := hi
          rw [List.length_take] at this
          omega
        have hget : (rows.take j).get ⟨i, hi⟩ = rows.get ⟨i, hi2⟩ := by
          simp [List.get_eq_getElem]
        rw [hget] at hm
        exact ⟨dayMatch_ne_empty hm, i, j, hi2, hj, hij, hm, hrow⟩

/-- Witness for `C4_day_header_discipline`. -/
theorem C4_day_header_discipline_witness :
    table_step ⟨none, []⟩ [⟨"Вторник, 10 сентября", none⟩] =
      ⟨some "Вторник, 10 сентября", []⟩ ∧
    (scenarioLesson.day ≠ "" ∧
      ∃ i j : Nat, ∃ hi : i < scenarioRows.length, ∃ hj : j < scenarioRows.length,
        i < j ∧
        dayMatch (rowFullText (scenarioRows.get ⟨i, hi⟩)) = some scenarioLesson.day ∧
        parse_lesson_row (Except.ok (scenarioRows.get ⟨j, hj⟩)) scenarioLesson.day =
          some scenarioLesson) :=
  ⟨C4_day_header_discipline.1 ⟨none, []⟩ [⟨"Вторник, 10 сентября", none⟩]
      "Вторник, 10 сентября" (by decide),
   C4_day_header_discipline.2 scenarioRows scenarioLesson (by decide)⟩

end NHTK
